import Mathlib

/-!
Verification of the chunk-summarize-merge core of the ai-voice-assistant
repository. The Python sources (Traitement/company.py, Traitement/cv.py,
Traitement/app.py, test.py, app.py) are shallowly embedded below: Python
strings become Lean `String` or `List Char`, the remote HTTP layer becomes an
explicit oracle argument, and CPython float arithmetic is modelled exactly by
rounding rationals to 53-bit significands (round to nearest, ties to even).
-/

set_option maxRecDepth 200000

namespace VoiceAssistant

/-! ## Python string helpers (character-list level)

`pySplit` embeds Python `str.split()` with no argument: split on runs of
whitespace, dropping empty pieces. The accumulator holds the current word in
reverse order. -/

def pySplitAux : List Char → List Char → List (List Char)
  | [], acc => if acc = [] then [] else [acc.reverse]
  | c :: cs, acc =>
    if c.isWhitespace then
      if acc = [] then pySplitAux cs []
      else acc.reverse :: pySplitAux cs []
    else pySplitAux cs (c :: acc)

def pySplit (s : List Char) : List (List Char) :=
  pySplitAux s []

/-- Single-space join, as in Python `" ".join(words)`. -/
def joinSpace (ws : List (List Char)) : List Char :=
  List.intercalate [' '] ws

/-! ## company.split_chunks (company.py lines 125-147)

The loop keeps the current chunk as a word list `cur` together with the running
`current_length` counter of the source. A chunk is emitted when adding the next
word would push the counter past the limit and the current chunk is nonempty. -/

def splitChunksLoop (limit : ℕ) : List (List Char) → List (List Char) → ℕ → List (List Char)
  | [], cur, _ => if cur = [] then [] else [joinSpace cur]
  | w :: ws, cur, curLen =>
    if limit < curLen + w.length + 1 ∧ cur ≠ [] then
      joinSpace cur :: splitChunksLoop limit ws [w] w.length
    else
      splitChunksLoop limit ws (cur ++ [w]) (curLen + w.length + 1)

def splitChunksChars (text : List Char) (limit : ℕ) : List (List Char) :=
  if text.length ≤ limit then [text]
  else splitChunksLoop limit (pySplit text) [] 0

/-- The same loop, keeping the word groups instead of joining them; used to
prove invariants of `splitChunksLoop`. -/
def chunkGroupsLoop (limit : ℕ) : List (List Char) → List (List Char) → ℕ → List (List (List Char))
  | [], cur, _ => if cur = [] then [] else [cur]
  | w :: ws, cur, curLen =>
    if limit < curLen + w.length + 1 ∧ cur ≠ [] then
      cur :: chunkGroupsLoop limit ws [w] w.length
    else
      chunkGroupsLoop limit ws (cur ++ [w]) (curLen + w.length + 1)

theorem splitChunksLoop_eq_map (limit : ℕ) :
    ∀ (ws cur : List (List Char)) (n : ℕ),
      splitChunksLoop limit ws cur n = (chunkGroupsLoop limit ws cur n).map joinSpace := by
  intro ws
  induction ws with
  | nil =>
    intro cur n
    by_cases h : cur = [] <;> simp [splitChunksLoop, chunkGroupsLoop, h]
  | cons w ws ih =>
    intro cur n
    by_cases h : limit < n + w.length + 1 ∧ cur ≠ []
    · simp [splitChunksLoop, chunkGroupsLoop, h, ih]
    · simp [splitChunksLoop, chunkGroupsLoop, h, ih]

theorem chunkGroupsLoop_join (limit : ℕ) :
    ∀ (ws cur : List (List Char)) (n : ℕ),
      (chunkGroupsLoop limit ws cur n).flatten = cur ++ ws := by
  intro ws
  induction ws with
  | nil =>
    intro cur n
    by_cases h : cur = []
    · simp [chunkGroupsLoop, h]
    · simp [chunkGroupsLoop, h]
  | cons w ws ih =>
    intro cur n
    by_cases h : limit < n + w.length + 1 ∧ cur ≠ []
    · simp [chunkGroupsLoop, h, ih]
    · simp [chunkGroupsLoop, h, ih]

theorem chunkGroupsLoop_ne_nil (limit : ℕ) :
    ∀ (ws cur : List (List Char)) (n : ℕ) (g : List (List Char)),
      g ∈ chunkGroupsLoop limit ws cur n → g ≠ [] := by
  intro ws
  induction ws with
  | nil =>
    intro cur n g hg
    by_cases h : cur = []
    · simp [chunkGroupsLoop, h] at hg
    · simp [chunkGroupsLoop, h] at hg
      subst hg
      exact fun hc => h hc
  | cons w ws ih =>
    intro cur n g hg
    by_cases h : limit < n + w.length + 1 ∧ cur ≠ []
    · simp [chunkGroupsLoop, h] at hg
      rcases hg with hg | hg
      · subst hg
        exact h.2
      · exact ih _ _ _ hg
    · simp [chunkGroupsLoop, h] at hg
      exact ih _ _ _ hg

/-! ### Properties of the single-space join -/

theorem joinSpace_nil : joinSpace [] = [] := rfl

theorem joinSpace_singleton (w : List Char) : joinSpace [w] = w := by
  simp [joinSpace, List.intercalate]

theorem joinSpace_cons_cons (x y : List Char) (l : List (List Char)) :
    joinSpace (x :: y :: l) = x ++ ' ' :: joinSpace (y :: l) := by
  simp [joinSpace, List.intercalate, List.intersperse]

theorem joinSpace_append (p m : List (List Char)) (hp : p ≠ []) (hm : m ≠ []) :
    joinSpace (p ++ m) = joinSpace p ++ ' ' :: joinSpace m := by
  induction p with
  | nil => exact absurd rfl hp
  | cons x p ih =>
    cases p with
    | nil =>
      cases m with
      | nil => exact absurd rfl hm
      | cons y m => simp [joinSpace_cons_cons, joinSpace_singleton]
    | cons x2 p2 =>
      have ih2 := ih (by simp)
      simp only [List.cons_append] at ih2 ⊢
      rw [joinSpace_cons_cons x x2 (p2 ++ m), ih2, joinSpace_cons_cons x x2 p2]
      simp

theorem joinSpace_append_singleton (cur : List (List Char)) (w : List Char) (h : cur ≠ []) :
    joinSpace (cur ++ [w]) = joinSpace cur ++ ' ' :: w := by
  rw [joinSpace_append cur [w] h (by simp), joinSpace_singleton]

theorem length_joinSpace_append_singleton (cur : List (List Char)) (w : List Char) (h : cur ≠ []) :
    (joinSpace (cur ++ [w])).length = (joinSpace cur).length + 1 + w.length := by
  rw [joinSpace_append_singleton cur w h]
  simp [Nat.add_comm, Nat.add_assoc, Nat.add_left_comm]

theorem joinSpace_map_joinSpace (parts : List (List (List Char)))
    (h : ∀ p ∈ parts, p ≠ []) :
    joinSpace (parts.map joinSpace) = joinSpace parts.flatten := by
  induction parts with
  | nil => rfl
  | cons p parts ih =>
    cases parts with
    | nil => simp [joinSpace_singleton]
    | cons q rest =>
      have hp : p ≠ [] := h p (by simp)
      have hq : q ≠ [] := h q (by simp)
      have hflat : (q :: rest).flatten ≠ [] := by
        simp only [List.flatten_cons]
        intro hc
        exact hq (List.append_eq_nil.mp hc).1
      have ih2 := ih (fun r hr => h r (List.mem_cons_of_mem _ hr))
      simp only [List.map_cons] at ih2 ⊢
      rw [joinSpace_cons_cons, ih2, ← joinSpace_append p _ hp hflat]
      simp

/-! ### The greedy invariant: every emitted chunk fits the limit unless it is a
single oversized token. The counter `n` always dominates the joined length of
the current chunk, and once the chunk has two or more words the counter is
known to be within the limit. -/

theorem chunkGroupsLoop_bound (limit : ℕ) :
    ∀ (ws cur : List (List Char)) (n : ℕ),
      (joinSpace cur).length ≤ n →
      (cur.length ≤ 1 ∨ n ≤ limit) →
      ∀ g ∈ chunkGroupsLoop limit ws cur n,
        (joinSpace g).length ≤ limit ∨ ∃ w, g = [w] ∧ w ∈ cur ++ ws := by
  intro ws
  induction ws with
  | nil =>
    intro cur n hlen hsz g hg
    by_cases h : cur = []
    · simp [chunkGroupsLoop, h] at hg
    · simp [chunkGroupsLoop, h] at hg
      subst hg
      rcases hsz with hsz | hsz
      · right
        rcases g with _ | ⟨w, rest⟩
        · exact absurd rfl h
        · rcases rest with _ | ⟨w2, rest2⟩
          · exact ⟨w, rfl, by simp⟩
          · simp at hsz
      · exact Or.inl (le_trans hlen hsz)
  | cons w ws ih =>
    intro cur n hlen hsz g hg
    by_cases h : limit < n + w.length + 1 ∧ cur ≠ []
    · simp only [chunkGroupsLoop, if_pos h, List.mem_cons] at hg
      rcases hg with hg | hg
      · subst hg
        rcases hsz with hsz | hsz
        · right
          rcases g with _ | ⟨w0, rest⟩
          · exact absurd rfl h.2
          · rcases rest with _ | ⟨w2, rest2⟩
            · exact ⟨w0, rfl, by simp⟩
            · simp at hsz
        · exact Or.inl (le_trans hlen hsz)
      · have hrec := ih [w] w.length (by simp [joinSpace_singleton]) (Or.inl (by simp)) g hg
        rcases hrec with hrec | ⟨w0, hg0, hw0⟩
        · exact Or.inl hrec
        · refine Or.inr ⟨w0, hg0, ?_⟩
          simp at hw0 ⊢
          tauto
    · simp only [chunkGroupsLoop, if_neg h] at hg
      by_cases hc : cur = []
      · subst hc
        have hrec := ih [w] (n + w.length + 1)
          (by simp [joinSpace_singleton]; omega) (Or.inl (by simp)) g (by simpa using hg)
        rcases hrec with hrec | ⟨w0, hg0, hw0⟩
        · exact Or.inl hrec
        · refine Or.inr ⟨w0, hg0, ?_⟩
          simp at hw0 ⊢
          tauto
      · have hle : n + w.length + 1 ≤ limit := by
          rcases not_and_or.mp h with h1 | h2
          · omega
          · exact absurd hc h2
        have hlen2 : (joinSpace (cur ++ [w])).length ≤ n + w.length + 1 := by
          rw [length_joinSpace_append_singleton cur w hc]
          omega
        have hrec := ih (cur ++ [w]) (n + w.length + 1) hlen2 (Or.inr hle) g hg
        rcases hrec with hrec | ⟨w0, hg0, hw0⟩
        · exact Or.inl hrec
        · refine Or.inr ⟨w0, hg0, ?_⟩
          simp at hw0 ⊢
          tauto

/-! ### Properties of `pySplit` -/

theorem pySplitAux_tokens :
    ∀ (s acc : List Char), (∀ c ∈ acc, ¬c.isWhitespace) →
      ∀ w ∈ pySplitAux s acc, w ≠ [] ∧ ∀ c ∈ w, ¬c.isWhitespace := by
  intro s
  induction s with
  | nil =>
    intro acc hacc w hw
    by_cases h : acc = []
    · simp [pySplitAux, h] at hw
    · simp [pySplitAux, h] at hw
      subst hw
      refine ⟨by simpa using h, ?_⟩
      intro c hc
      exact hacc c (by simpa using hc)
  | cons c cs ih =>
    intro acc hacc w hw
    by_cases hws : c.isWhitespace
    · by_cases h : acc = []
      · simp [pySplitAux, hws, h] at hw
        exact ih [] (by simp) w hw
      · simp [pySplitAux, hws, h] at hw
        rcases hw with hw | hw
        · subst hw
          refine ⟨by simpa using h, ?_⟩
          intro c2 hc2
          exact hacc c2 (by simpa using hc2)
        · exact ih [] (by simp) w hw
    · simp [pySplitAux, hws] at hw
      refine ih (c :: acc) ?_ w hw
      intro c2 hc2
      rcases List.mem_cons.mp hc2 with h2 | h2
      · subst h2; exact hws
      · exact hacc c2 h2

theorem pySplit_tokens (s : List Char) :
    ∀ w ∈ pySplit s, w ≠ [] ∧ ∀ c ∈ w, ¬c.isWhitespace :=
  pySplitAux_tokens s [] (by simp)

theorem pySplitAux_all_whitespace :
    ∀ (s : List Char), (∀ c ∈ s, c.isWhitespace) → pySplitAux s [] = [] := by
  intro s
  induction s with
  | nil => simp [pySplitAux]
  | cons c cs ih =>
    intro h
    have hc : c.isWhitespace := h c (by simp)
    simp [pySplitAux, hc]
    exact ih (fun c2 hc2 => h c2 (by simp [hc2]))

theorem pySplitAux_no_whitespace :
    ∀ (s acc : List Char), (∀ c ∈ s, ¬c.isWhitespace) → (acc ≠ [] ∨ s ≠ []) →
      pySplitAux s acc = [acc.reverse ++ s] := by
  intro s
  induction s with
  | nil =>
    intro acc _ hne
    rcases hne with hne | hne
    · simp [pySplitAux, hne]
    · exact absurd rfl hne
  | cons c cs ih =>
    intro acc hs _
    have hc : ¬c.isWhitespace := hs c (by simp)
    simp only [pySplitAux, if_neg hc]
    rw [ih (c :: acc) (fun c2 hc2 => hs c2 (by simp [hc2])) (Or.inl (by simp))]
    simp

theorem pySplit_no_whitespace (s : List Char) (hs : ∀ c ∈ s, ¬c.isWhitespace)
    (hne : s ≠ []) : pySplit s = [s] := by
  rw [pySplit, pySplitAux_no_whitespace s [] hs (Or.inr hne)]
  simp

/-- Scanning a whitespace-free word prefix just moves it into the accumulator. -/
theorem pySplitAux_word_prefix :
    ∀ (w s acc : List Char), (∀ c ∈ w, ¬c.isWhitespace) →
      pySplitAux (w ++ s) acc = pySplitAux s (w.reverse ++ acc) := by
  intro w
  induction w with
  | nil => intro s acc _; simp
  | cons c w ih =>
    intro s acc hw
    have hc : ¬c.isWhitespace := hw c (by simp)
    simp only [List.cons_append, pySplitAux, if_neg hc, List.append_eq]
    rw [ih s (c :: acc) (fun c2 hc2 => hw c2 (by simp [hc2]))]
    simp

theorem pySplitAux_space_cons (s acc : List Char) (h : acc ≠ []) :
    pySplitAux (' ' :: s) acc = acc.reverse :: pySplitAux s [] := by
  simp [pySplitAux, h]

/-- Splitting a single-space join of whitespace-free nonempty words recovers
exactly those words. -/
theorem pySplit_joinSpace (g : List (List Char)) (hg : g ≠ [])
    (h1 : ∀ w ∈ g, w ≠ []) (h2 : ∀ w ∈ g, ∀ c ∈ w, ¬c.isWhitespace) :
    pySplit (joinSpace g) = g := by
  induction g with
  | nil => exact absurd rfl hg
  | cons w g ih =>
    cases g with
    | nil =>
      rw [joinSpace_singleton]
      exact pySplit_no_whitespace w (h2 w (by simp)) (h1 w (by simp))
    | cons q rest =>
      have hw : ∀ c ∈ w, ¬c.isWhitespace := h2 w (by simp)
      have hsplit : joinSpace (w :: q :: rest) = w ++ ' ' :: joinSpace (q :: rest) :=
        joinSpace_cons_cons w q rest
      rw [hsplit, pySplit, pySplitAux_word_prefix w _ [] hw,
        pySplitAux_space_cons _ _ (by simpa using h1 w (by simp))]
      have ihr := ih (by simp)
        (fun x hx => h1 x (List.mem_cons_of_mem _ hx))
        (fun x hx => h2 x (List.mem_cons_of_mem _ hx))
      rw [pySplit] at ihr
      rw [List.append_nil, List.reverse_reverse, ihr]

/-! ## String-level wrapper for the company chunker -/

def split_chunks (text : String) (limit : ℕ) : List String :=
  (splitChunksChars text.data limit).map String.mk

/-! ## cv.py helpers (cv.py lines 59-83)

`pyStrip` embeds Python `str.strip()`; `splitNl` embeds splitting on the
newline character (`str.split("\n")`, which keeps empty pieces). The source
calls `str.splitlines()` inside `split_chunks`; on the inputs it is applied to
(stripped text without carriage returns or exotic line separators) the two
agree, so `splitNl` models both. -/

def pyStrip (l : List Char) : List Char :=
  ((l.dropWhile Char.isWhitespace).reverse.dropWhile Char.isWhitespace).reverse

/-- Python `str.strip()` at the `String` level. -/
def pyStripStr (s : String) : String := String.mk (pyStrip s.data)

def splitNlAux : List Char → List Char → List (List Char)
  | [], acc => [acc.reverse]
  | c :: cs, acc =>
    if c = '\n' then acc.reverse :: splitNlAux cs []
    else splitNlAux cs (c :: acc)

def splitNl (l : List Char) : List (List Char) :=
  splitNlAux l []

/-- Newline join, as in Python `"\n".join(lines)`. -/
def joinNl (ls : List (List Char)) : List Char :=
  List.intercalate ['\n'] ls

/-- cv.clean_text (cv.py lines 59-61): drop carriage returns, split on
newlines, strip each line, keep the nonempty ones, re-join with newlines. -/
def cv_clean_text (t : List Char) : List Char :=
  joinNl (((splitNl (t.filter (fun c => c ≠ '\r'))).map pyStrip).filter
    (fun ln => ln ≠ []))

/-- The loop of cv.split_chunks (cv.py lines 68-83). -/
def cvSplitLoop (limit : ℕ) : List (List Char) → List (List Char) → ℕ → List (List Char)
  | [], buf, _ => if buf = [] then [] else [pyStrip (joinNl buf)]
  | line :: rest, buf, size =>
    let ln := pyStrip line
    if limit < size + (ln.length + 1) ∧ buf ≠ [] then
      pyStrip (joinNl buf) :: cvSplitLoop limit rest [ln] ln.length
    else
      cvSplitLoop limit rest (buf ++ [ln]) (size + (ln.length + 1))

/-- cv.split_chunks (cv.py lines 64-83): strips the text first, returns it
whole when the stripped text fits the limit, otherwise splits on lines. -/
def cv_split_chunks (text : List Char) (limit : ℕ) : List (List Char) :=
  let t := pyStrip text
  if t.length ≤ limit then [t]
  else cvSplitLoop limit (splitNl t) [] 0

/-! ### Whitespace-run facts used for the implicit chunker claims -/

theorem chain_of_no_ws (l : List Char) (h : ∀ c ∈ l, ¬c.isWhitespace) :
    l.Chain' (fun a b => ¬(a.isWhitespace ∧ b.isWhitespace)) := by
  induction l with
  | nil => simp
  | cons a l ih =>
    rw [List.chain'_cons']
    exact ⟨fun y _ hc => h a (by simp) hc.1,
      ih (fun c hc => h c (by simp [hc]))⟩

theorem joinSpace_no_ws_run (g : List (List Char)) (hg : g ≠ [])
    (h1 : ∀ w ∈ g, w ≠ []) (h2 : ∀ w ∈ g, ∀ c ∈ w, ¬c.isWhitespace) :
    joinSpace g ≠ [] ∧
    (∀ a, (joinSpace g).head? = some a → ¬a.isWhitespace) ∧
    (∀ a, (joinSpace g).getLast? = some a → ¬a.isWhitespace) ∧
    (joinSpace g).Chain' (fun a b => ¬(a.isWhitespace ∧ b.isWhitespace)) := by
  induction g with
  | nil => exact absurd rfl hg
  | cons w g ih
  =>
    cases g with
    | nil =>
      rw [joinSpace_singleton]
      have hw := h1 w (by simp)
      have hnw := h2 w (by simp)
      refine ⟨hw, ?_, ?_, chain_of_no_ws w hnw⟩
      · intro a ha
        exact hnw a (List.mem_of_mem_head? ha)
      · intro a ha
        rcases List.mem_getLast?_eq_getLast ha with ⟨hne, rfl⟩
        exact hnw _ (List.getLast_mem hne)
    | cons q rest =>
      have hw : w ≠ [] := h1 w (by simp)
      have hnw := h2 w (by simp)
      have ihr := ih (by simp)
        (fun x hx => h1 x (List.mem_cons_of_mem _ hx))
        (fun x hx => h2 x (List.mem_cons_of_mem _ hx))
      obtain ⟨hJne, hJhead, hJlast, hJchain⟩ := ihr
      rw [joinSpace_cons_cons]
      refine ⟨by simp [hw], ?_, ?_, ?_⟩
      · intro a ha
        rw [List.head?_append_of_ne_nil w hw] at ha
        exact hnw a (List.mem_of_mem_head? ha)
      · intro a ha
        rw [List.getLast?_append_cons] at ha
        rw [List.getLast?_cons, List.getLast?_eq_getLast_of_ne_nil hJne] at ha
        simp at ha
        rcases List.mem_getLast?_eq_getLast (ha ▸ (List.getLast?_eq_getLast_of_ne_nil hJne)) with ⟨hne2, heq⟩
        exact hJlast a (by rw [List.getLast?_eq_getLast_of_ne_nil hJne, ha])
      · refine List.Chain'.append (chain_of_no_ws w hnw) ?_ ?_
        · rw [List.chain'_cons']
          refine ⟨?_, hJchain⟩
          intro y hy hc
          exact hJhead y hy hc.2
        · intro x hx y hy hc
          rcases List.mem_getLast?_eq_getLast hx with ⟨hne2, rfl⟩
          exact hnw _ (List.getLast_mem hne2) hc.1

/-! ## Claim theorems for the chunker -/

/-- C1: for every input text longer than the limit, joining the returned
segments of `split_chunks` with single spaces reproduces the whitespace
normalized token sequence, and any segment longer than the limit is itself a
single whitespace-delimited token of the input (the accepted oversized-token
overflow); all other segments fit within the limit. -/
theorem claim1_split_join_and_oversized_bound (text : List Char) (limit : ℕ)
    (h : limit < text.length) :
    joinSpace (splitChunksChars text limit) = joinSpace (pySplit text) ∧
    ∀ c ∈ splitChunksChars text limit, limit < c.length → c ∈ pySplit text := by
  have hnot : ¬text.length ≤ limit := not_le.mpr h
  constructor
  · rw [splitChunksChars, if_neg hnot, splitChunksLoop_eq_map,
      joinSpace_map_joinSpace _ (fun p hp => chunkGroupsLoop_ne_nil limit _ _ _ p hp),
      chunkGroupsLoop_join]
    simp
  · intro c hc hlen
    rw [splitChunksChars, if_neg hnot, splitChunksLoop_eq_map] at hc
    rcases List.mem_map.mp hc with ⟨g, hg, rfl⟩
    have hb := chunkGroupsLoop_bound limit (pySplit text) [] 0
      (by simp [joinSpace_nil]) (Or.inl (by simp)) g hg
    rcases hb with hb | ⟨w, rfl, hw⟩
    · omega
    · rw [joinSpace_singleton] at hlen ⊢
      simpa using hw

theorem claim1_witness :
    5 < (['a', 'b', ' ', 'c', 'd', ' ', 'e', 'f'] : List Char).length ∧
    (joinSpace (splitChunksChars ['a', 'b', ' ', 'c', 'd', ' ', 'e', 'f'] 5) =
      joinSpace (pySplit ['a', 'b', ' ', 'c', 'd', ' ', 'e', 'f']) ∧
     ∀ c ∈ splitChunksChars ['a', 'b', ' ', 'c', 'd', ' ', 'e', 'f'] 5,
       5 < c.length → c ∈ pySplit ['a', 'b', ' ', 'c', 'd', ' ', 'e', 'f']) :=
  ⟨by decide,
   claim1_split_join_and_oversized_bound ['a', 'b', ' ', 'c', 'd', ' ', 'e', 'f'] 5 (by decide)⟩

/-- C2 (counterexample): the cv variant of `split_chunks` strips its input
first, so on the three-character input `" a "` with limit 3 (which satisfies
`len(text) <= limit`) it returns `["a"]`, not the input unchanged. -/
theorem claim2_counterexample :
    ([' ', 'a', ' '] : List Char).length ≤ 3 ∧
    cv_split_chunks [' ', 'a', ' '] 3 ≠ [[' ', 'a', ' ']] := by
  exact ⟨by decide, by decide⟩

/-- C2 (amended): for text whose length is within the limit, the company
`split_chunks` returns exactly one segment equal to the input unchanged, while
the cv `split_chunks` returns exactly one segment equal to the stripped input
(it strips before measuring, so this also covers every input whose stripped
form fits the limit). -/
theorem claim2_short_text_single_segment (text : List Char) (limit : ℕ) :
    (text.length ≤ limit → splitChunksChars text limit = [text]) ∧
    ((pyStrip text).length ≤ limit → cv_split_chunks text limit = [pyStrip text]) := by
  constructor
  · intro h
    rw [splitChunksChars, if_pos h]
  · intro h
    simp only [cv_split_chunks]
    rw [if_pos h]

theorem claim2_witness :
    (['a'] : List Char).length ≤ 5 ∧ splitChunksChars ['a'] 5 = [['a']] ∧
    (pyStrip [' ', 'a']).length ≤ 5 ∧ cv_split_chunks [' ', 'a'] 5 = [pyStrip [' ', 'a']] :=
  ⟨by decide, (claim2_short_text_single_segment ['a'] 5).1 (by decide),
   by decide, (claim2_short_text_single_segment [' ', 'a'] 5).2 (by decide)⟩

/-- C9: on a whitespace-only input longer than the limit, `split_chunks`
returns the empty list; and in the over-limit case every returned segment is a
single-space join of consecutive tokens of the input, hence nonempty with no
leading whitespace, no trailing whitespace, and no two adjacent whitespace
characters. -/
theorem claim9_whitespace_only_and_normalized_segments (text : List Char) (limit : ℕ)
    (h : limit < text.length) :
    ((∀ c ∈ text, c.isWhitespace) → splitChunksChars text limit = []) ∧
    (∃ gs : List (List (List Char)), gs.flatten = pySplit text ∧
      splitChunksChars text limit = gs.map joinSpace ∧ ∀ g ∈ gs, g ≠ []) ∧
    (∀ c ∈ splitChunksChars text limit,
      c ≠ [] ∧ (∀ a, c.head? = some a → ¬a.isWhitespace) ∧
      (∀ a, c.getLast? = some a → ¬a.isWhitespace) ∧
      c.Chain' (fun a b => ¬(a.isWhitespace ∧ b.isWhitespace))) := by
  have hnot : ¬text.length ≤ limit := not_le.mpr h
  refine ⟨?_, ?_, ?_⟩
  · intro hws
    rw [splitChunksChars, if_neg hnot]
    have hsp : pySplit text = [] := pySplitAux_all_whitespace text hws
    rw [hsp]
    rfl
  · refine ⟨chunkGroupsLoop limit (pySplit text) [] 0, ?_, ?_, ?_⟩
    · rw [chunkGroupsLoop_join]
      rfl
    · rw [splitChunksChars, if_neg hnot, splitChunksLoop_eq_map]
    · exact fun g hg => chunkGroupsLoop_ne_nil limit _ _ _ g hg
  · intro c hc
    rw [splitChunksChars, if_neg hnot, splitChunksLoop_eq_map] at hc
    rcases List.mem_map.mp hc with ⟨g, hg, rfl⟩
    have hgne : g ≠ [] := chunkGroupsLoop_ne_nil limit _ _ _ g hg
    have hmem : ∀ w ∈ g, w ∈ pySplit text := by
      intro w hw
      have : w ∈ (chunkGroupsLoop limit (pySplit text) [] 0).flatten :=
        List.mem_flatten.mpr ⟨g, hg, hw⟩
      rw [chunkGroupsLoop_join] at this
      simpa using this
    exact joinSpace_no_ws_run g hgne
      (fun w hw => (pySplit_tokens text w (hmem w hw)).1)
      (fun w hw => (pySplit_tokens text w (hmem w hw)).2)

theorem claim9_witness :
    2 < ([' ', ' ', ' '] : List Char).length ∧
    ((∀ c ∈ ([' ', ' ', ' '] : List Char), c.isWhitespace) →
      splitChunksChars [' ', ' ', ' '] 2 = []) ∧
    splitChunksChars [' ', ' ', ' '] 2 = [] :=
  ⟨by decide,
   (claim9_whitespace_only_and_normalized_segments [' ', ' ', ' '] 2 (by decide)).1,
   (claim9_whitespace_only_and_normalized_segments [' ', ' ', ' '] 2 (by decide)).1 (by decide)⟩

/-! ## Exact model of CPython binary64 arithmetic

The per-chunk word budget is computed in Python as
`max(50, int(target_words * 0.7 / len(chunks)))`, i.e. in IEEE-754 binary64
floating point. We model a finite double as the exact rational it denotes,
kept as an unreduced numerator/denominator pair (`Frac`, denominator positive),
and each operation as the exact rational operation followed by rounding to a
53-bit significand (round to nearest, ties to even). Overflow and subnormal
behaviour are irrelevant at the magnitudes involved and are not modelled, and
a zero denominator (Python would raise `ZeroDivisionError`) produces junk that
no reachable branch inspects. -/

structure Frac where
  num : ℤ
  den : ℤ
deriving DecidableEq

def Frac.ofInt (z : ℤ) : Frac := ⟨z, 1⟩

def Frac.mul (x y : Frac) : Frac := ⟨x.num * y.num, x.den * y.den⟩

def Frac.div (x y : Frac) : Frac :=
  if y.num < 0 then ⟨-(x.num * y.den), x.den * -y.num⟩
  else ⟨x.num * y.den, x.den * y.num⟩

/-- Fuel-based structural base-2 logarithm (`⌊log₂ n⌋` for `n ≥ 1`); the fuel
argument makes kernel reduction possible, `n` itself is always enough fuel. -/
def natLog2Aux : ℕ → ℕ → ℕ
  | 0, _ => 0
  | fuel + 1, n => if n ≤ 1 then 0 else 1 + natLog2Aux fuel (n / 2)

def natLog2 (n : ℕ) : ℕ := natLog2Aux n n

/-- Least `m` with `d ≤ n * 2 ^ m`, for `0 < n < d`; fuel-based, `d` is always
enough fuel. -/
def ceilLog2RatioAux : ℕ → ℕ → ℕ → ℕ
  | 0, _, _ => 0
  | fuel + 1, n, d => if d ≤ n then 0 else 1 + ceilLog2RatioAux fuel (2 * n) d

def ceilLog2Ratio (n d : ℕ) : ℕ := ceilLog2RatioAux d n d

/-- `⌊log₂ x⌋` for a positive fraction, with the convention `0 ↦ 0`. -/
def floorLog2 (x : Frac) : ℤ :=
  let n := x.num.natAbs
  let d := x.den.natAbs
  if n = 0 then 0
  else if d ≤ n then (natLog2 (n / d) : ℤ)
  else -(ceilLog2Ratio n d : ℤ)

/-- Round an exact fraction to the nearest binary64-representable value
(53 significant bits, ties to even). -/
def roundFloat (x : Frac) : Frac :=
  if x.num = 0 then ⟨0, 1⟩
  else
    let neg : Bool := x.num < 0
    let a : Frac := if neg then ⟨-x.num, x.den⟩ else x
    let e : ℤ := floorLog2 a - 52
    let scaled : Frac :=
      if 0 ≤ e then ⟨a.num, a.den * ((2 ^ e.toNat : ℕ) : ℤ)⟩
      else ⟨a.num * ((2 ^ (-e).toNat : ℕ) : ℤ), a.den⟩
    let fl : ℤ := scaled.num.fdiv scaled.den
    let r : ℤ := scaled.num - fl * scaled.den
    let m : ℤ :=
      if 2 * r < scaled.den then fl
      else if scaled.den < 2 * r then fl + 1
      else if fl % 2 = 0 then fl else fl + 1
    let mag : Frac :=
      if 0 ≤ e then ⟨m * ((2 ^ e.toNat : ℕ) : ℤ), 1⟩
      else ⟨m, ((2 ^ (-e).toNat : ℕ) : ℤ)⟩
    if neg then ⟨-mag.num, mag.den⟩ else mag

/-- CPython int-to-float conversion (exact below `2 ^ 53`, rounded above). -/
def pyFloat (z : ℤ) : Frac := roundFloat (Frac.ofInt z)

/-- binary64 multiplication and division on the modelled values. -/
def fmul (x y : Frac) : Frac := roundFloat (x.mul y)

def fdiv (x y : Frac) : Frac := roundFloat (x.div y)

/-- Python `int(x)` on a float: truncation toward zero. -/
def pyTrunc (x : Frac) : ℤ :=
  if x.num < 0 then -((-x.num).fdiv x.den) else x.num.fdiv x.den

/-- The binary64 value of the literal `0.7` (company damping factor). -/
def c07 : Frac := roundFloat ⟨7, 10⟩

/-- The binary64 value of the literal `0.6` (cv damping factor). -/
def c06 : Frac := roundFloat ⟨6, 10⟩

/-- company.py line 246: `per_chunk_goal = max(50, int(target_words * 0.7 / len(chunks)))`. -/
def per_chunk_goal (targetWords : ℤ) (numChunks : ℕ) : ℤ :=
  max 50 (pyTrunc (fdiv (fmul (pyFloat targetWords) c07) (pyFloat numChunks)))

/-- cv.py line 135: `per_chunk_goal = max(50, int(target_words * 0.6 / len(chunks)))`. -/
def per_chunk_goal_cv (targetWords : ℤ) (numChunks : ℕ) : ℤ :=
  max 50 (pyTrunc (fdiv (fmul (pyFloat targetWords) c06) (pyFloat numChunks)))

/-- The budget formula as the spec words it, in exact integer arithmetic:
`max(50, floor(target_words * 0.7 / segment_count))`. A refinement reference
definition, to be compared with `per_chunk_goal` above. -/
def specBudgetFormula (targetWords : ℤ) (numChunks : ℕ) : ℤ :=
  max 50 (Int.fdiv (7 * targetWords) (10 * numChunks))

/-- C4 (counterexample): the code computes the budget in binary64 floating
point, which at `target_words = 180`, `segment_count = 2` yields
`int(180 * 0.7 / 2) = int(62.99999999999999) = 62`, while the exact formula of
the claim gives `floor(126 / 2) = 63`. -/
theorem claim4_counterexample :
    per_chunk_goal 180 2 = 62 ∧ specBudgetFormula 180 2 = 63 ∧
    per_chunk_goal 180 2 ≠ specBudgetFormula 180 2 := by
  refine ⟨by decide, by decide, by decide⟩

/-- C4 (amended): the per-chunk budget equals `max(50, ...)` of the
floating-point expression and is therefore at least 50 for every target word
count and every segment count, in both the company (damping 0.7) and the cv
(damping 0.6) orchestrators; it can differ by one from the exact-arithmetic
floor formula. -/
theorem claim4_budget_at_least_50 (targetWords : ℤ) (numChunks : ℕ) :
    50 ≤ per_chunk_goal targetWords numChunks ∧
    50 ≤ per_chunk_goal_cv targetWords numChunks :=
  ⟨le_max_left _ _, le_max_left _ _⟩

/-! ## Messages and the remote HTTP boundary

`ChatMessage` models one OpenAI-style message dict. `HttpResult` models the
outcome of one `httpx` POST to the completions endpoint, as seen by the
`try/except` blocks of the sources: `success content` is a 2xx response whose
parsed content field is `content` (absent fields default to the empty string),
`statusError` is the `httpx.HTTPStatusError` raised by `raise_for_status`, and
`failure` is any other exception (transport errors, JSON errors, an empty
`choices` list). The network is an oracle `Env` from the posted messages to an
outcome. -/

structure ChatMessage where
  role : String
  content : String
deriving DecidableEq

inductive HttpResult where
  | success (content : String)
  | statusError (code : ℕ) (body : String)
  | failure (msg : String)
deriving DecidableEq

abbrev Env := List ChatMessage → HttpResult

/-- company.call_llm (company.py lines 150-179). -/
def call_llm (apiKey : String) (resp : HttpResult) : String :=
  if apiKey = "" then "Erreur: GROQ_API_KEY non configurée"
  else
    match resp with
    | .success content =>
      if pyStripStr content = "" then "(Analyse vide)" else pyStripStr content
    | .statusError code body => "HTTP " ++ toString code ++ ": " ++ body.take 200
    | .failure msg => "Erreur réseau: " ++ msg

/-- cv.call_llm (cv.py lines 86-112); identical shape, different fixed texts. -/
def call_llm_cv (apiKey : String) (resp : HttpResult) : String :=
  if apiKey = "" then "Erreur: variable GROQ_API_KEY absente."
  else
    match resp with
    | .success content =>
      if pyStripStr content = "" then "(Résumé vide)" else pyStripStr content
    | .statusError code body => "HTTP " ++ toString code ++ ": " ++ body.take 200
    | .failure msg => "Erreur réseau: " ++ msg

/-- Python `sep.join(parts)`. -/
def joinWith (sep : String) : List String → String
  | [] => ""
  | [x] => x
  | x :: y :: rest => x ++ sep ++ joinWith sep (y :: rest)

/-- The messages actually posted over the network by one `call_llm`
invocation: none when the credential is absent (`call_llm` returns its fixed
error before any HTTP post). -/
def httpCalls (apiKey : String) (msgs : List ChatMessage) : List (List ChatMessage) :=
  if apiKey = "" then [] else [msgs]

/-! ## company.py orchestrator (lines 24-29, 182-268) -/

def SYSTEM_PROMPT : String :=
  "Tu es un assistant qui analyse et extrait des informations sur les entreprises à partir de leur site web. Structure attendue: 1) Nom et secteur d\x27activité 2) Description de l\x27entreprise 3) Produits/Services principaux 4) Technologies utilisées 5) Taille/Localisation 6) Valeurs et culture d\x27entreprise. Extrait uniquement les informations factuelles présentes sur le site. Ton professionnel et concis."

def analyzeChunkPrompt (chunk url : String) (targetWords : ℤ) : String :=
  "Analyse ce contenu du site web " ++ url ++ " et extrait les informations clés sur l\x27entreprise en ~" ++ toString targetWords ++ " mots. Focus sur: activité, produits/services, technologies, valeurs.\n\n=== CONTENU ===\n" ++ chunk

def analyzeChunkMessages (chunk url : String) (targetWords : ℤ) : List ChatMessage :=
  [⟨"system", SYSTEM_PROMPT⟩, ⟨"user", analyzeChunkPrompt chunk url targetWords⟩]

/-- company.analyze_chunk (lines 182-193). -/
def analyze_chunk (apiKey : String) (env : Env) (chunk url : String) (targetWords : ℤ) : String :=
  call_llm apiKey (env (analyzeChunkMessages chunk url targetWords))

def fusionPromptCompany (targetWords : ℤ) (merged : String) : String :=
  "Synthétise les analyses partielles ci-dessous en une analyse globale de l\x27entreprise (" ++ toString targetWords ++ " mots max). Structure: secteur, activité, produits/services, technologies, culture d\x27entreprise. Évite les répétitions.\n\n=== ANALYSES PARTIELLES ===\n" ++ merged

def fusionMessagesCompany (targetWords : ℤ) (merged : String) : List ChatMessage :=
  [⟨"system", SYSTEM_PROMPT⟩, ⟨"user", fusionPromptCompany targetWords merged⟩]

/-- The labelled partial analyses (company.py lines 247-252). -/
def companyPartials (apiKey : String) (env : Env) (url : String) (chunks : List String)
    (goal : ℤ) : List String :=
  chunks.mapIdx (fun i c =>
    "[Segment " ++ toString (i + 1) ++ "/" ++ toString chunks.length ++ "]\n" ++
      analyze_chunk apiKey env c url goal)

/-- The fusion input: the partial analyses joined by blank lines
(company.py line 255). -/
def companyMerged (apiKey : String) (env : Env) (url : String) (chunks : List String)
    (goal : ℤ) : String :=
  joinWith "\n\n" (companyPartials apiKey env url chunks goal)

/-- The no-key fallback text (company.py lines 225-236). The source reads the
title and meta description through `dict.get` with a default, but both keys
are always present in the scrape result, so the values are passed directly. -/
def basicInfo (url title metaDescription rawContent : String) : String :=
  "\nINFORMATIONS EXTRAITES (sans analyse IA):\n\nURL: " ++ url ++ "\nTitre: " ++ title ++
    "\nMeta description: " ++ metaDescription ++
    "\n\nContenu principal (premiers 1000 caractères):\n" ++ rawContent.take 1000 ++
    (if 1000 < rawContent.length then "..." else "") ++
    "\n\nNote: Pour une analyse complète avec IA, configurez GROQ_API_KEY\n"

/-- company.analyze_company_website from line 218 on, taking the already
scraped and cleaned `rawContent` (the scraping stage is an external
collaborator). The second component lists the message lists actually posted to
the endpoint, in order. `none` models the uncaught `ZeroDivisionError` that
the source would raise if the chunk list were empty (unreachable for the
cleaned content the caller passes). -/
def analyze_company_website (apiKey : String) (env : Env)
    (url title metaDescription rawContent : String) (targetWords : ℤ)
    (chunkLimit : ℕ) : Option (String × List (List ChatMessage)) :=
  if rawContent = "" then some ("Aucun contenu utilisable trouvé sur le site web.", [])
  else if apiKey = "" then some (basicInfo url title metaDescription rawContent, [])
  else
    let chunks := split_chunks rawContent chunkLimit
    if chunks.length = 1 then
      let msgs := analyzeChunkMessages chunks.headI url targetWords
      some (call_llm apiKey (env msgs), httpCalls apiKey msgs)
    else if chunks.length = 0 then none
    else
      let goal := per_chunk_goal targetWords chunks.length
      let merged := companyMerged apiKey env url chunks goal
      let fmsgs := fusionMessagesCompany targetWords merged
      some (call_llm apiKey (env fmsgs),
        (chunks.map (fun c => httpCalls apiKey (analyzeChunkMessages c url goal))).flatten ++
          httpCalls apiKey fmsgs)

/-! ## cv.py orchestrator (lines 20-24, 115-151) -/

def SYSTEM_PROMPT_CV : String :=
  "Tu es un assistant qui résume des CV en français de manière professionnelle, structurée et factuelle. Structure attendue: 1) Profil 2) Compétences clés 3) Réalisations quantifiées 4) Stack / Outils 5) Valeur ajoutée / Positionnement. Ne pas inventer. Conserver chiffres, métriques, technologies. Ton concis."

def summarizeChunkPrompt (chunk : String) (targetWords : ℤ) : String :=
  "Résume ce segment de CV en ~" ++ toString targetWords ++ " mots, puces concises, garde chiffres/tech.\n\n=== SEGMENT ===\n" ++ chunk

def summarizeChunkMessages (chunk : String) (targetWords : ℤ) : List ChatMessage :=
  [⟨"system", SYSTEM_PROMPT_CV⟩, ⟨"user", summarizeChunkPrompt chunk targetWords⟩]

/-- cv.summarize_chunk (lines 115-123). -/
def summarize_chunk (apiKey : String) (env : Env) (chunk : String) (targetWords : ℤ) : String :=
  call_llm_cv apiKey (env (summarizeChunkMessages chunk targetWords))

def fusionPromptCv (targetWords : ℤ) (merged : String) : String :=
  "Fusionne les résumés partiels ci-dessous en un résumé global (~" ++ toString targetWords ++ " mots) sans répétitions, même structure exigée, conserve métriques & mots-clés.\n\n=== RÉSUMÉS PARTIELS ===\n" ++ merged

def fusionMessagesCv (targetWords : ℤ) (merged : String) : List ChatMessage :=
  [⟨"system", SYSTEM_PROMPT_CV⟩, ⟨"user", fusionPromptCv targetWords merged⟩]

def cvPartials (apiKey : String) (env : Env) (chunks : List String) (goal : ℤ) : List String :=
  chunks.mapIdx (fun i c =>
    "[Partie " ++ toString (i + 1) ++ "/" ++ toString chunks.length ++ "]\n" ++
      summarize_chunk apiKey env c goal)

/-- The cv fusion input (cv.py line 141). -/
def cvMerged (apiKey : String) (env : Env) (chunks : List String) (goal : ℤ) : String :=
  joinWith "\n\n" (cvPartials apiKey env chunks goal)

/-- cv.summarize_cv (lines 126-151), with the same trace and `none`
conventions as `analyze_company_website` (here the zero-chunk branch is in
fact unreachable because `cv_split_chunks` never returns an empty list). -/
def summarize_cv (apiKey : String) (env : Env) (rawText : String) (targetWords : ℤ)
    (chunkLimit : ℕ) : Option (String × List (List ChatMessage)) :=
  let raw := String.mk (cv_clean_text rawText.data)
  if raw = "" then some ("CV vide.", [])
  else
    let chunks := (cv_split_chunks raw.data chunkLimit).map String.mk
    if chunks.length = 1 then
      let msgs := summarizeChunkMessages chunks.headI targetWords
      some (call_llm_cv apiKey (env msgs), httpCalls apiKey msgs)
    else if chunks.length = 0 then none
    else
      let goal := per_chunk_goal_cv targetWords chunks.length
      let merged := cvMerged apiKey env chunks goal
      let fmsgs := fusionMessagesCv targetWords merged
      some (call_llm_cv apiKey (env fmsgs),
        (chunks.map (fun c => httpCalls apiKey (summarizeChunkMessages c targetWords))).flatten ++
          httpCalls apiKey fmsgs)

/-! ## Traitement/app.py text endpoint (lines 51-138) -/

def ENGINEER_BIO : String :=
  "Profil: Étudiant en pré-ingénierie (ISIMS, Sfax) orienté IA/ML, systèmes embarqués et agents conversationnels.\nProjets: Smart Grid LSTM (>90%), Wearables (Peltier/Piezo, Arduino), Assistant Agricole (NLP/Dialogflow FR/AR), AIAvatarKit (VAD/STT/LLM/TTS temps réel), n8n+Puppeteer, Canvas PDF Merger, GenAI Workflow Hub, Crypto MLOps (Cerebrium/CometML/CI-CD), Unified MCP Tool Graph (Neo4j/LangGraph).\nCompétences: Python, TensorFlow, Pandas, LSTM, Dialogflow, Arduino, 3D printing, Next.js/TS/Tailwind, Git, Linux.\nRéponses: claires, structurées, concises; extraits de code minimalistes si utile; demander précisions en cas d’ambiguïté."

def buildSystemPrompt : String :=
  ENGINEER_BIO ++ "\n\nDirectives:\n- Répondre en français (sauf demande explicite contraire).\n- Être clair, structuré, pédagogique et concis.\n- Citer des approches/outils pertinents si utile (LSTM, TensorFlow, Dialogflow, Next.js, Neo4j...).\n- Extraits de code minimalistes et corrects si question technique.\n- Demander des précisions si ambigu.\n"

def messagesFromText (userText : String) : List ChatMessage :=
  [⟨"system", buildSystemPrompt⟩, ⟨"user", userText⟩]

/-- app._call_groq_text (Traitement/app.py lines 110-138). The second
component counts the HTTP posts made. -/
def callGroqText (apiKey : String) (env : Env) (userText : String) : String × ℕ :=
  if pyStripStr userText = "" then ("Veuillez saisir un prompt.", 0)
  else if apiKey = "" then ("Mode dégradé: aucune clé Groq fournie.", 0)
  else
    (match env (messagesFromText userText) with
     | .success content =>
       if pyStripStr content = "" then "Réponse vide du modèle." else pyStripStr content
     | .statusError code body => "Erreur Groq (" ++ toString code ++ "): " ++ body.take 200
     | .failure msg => "Erreur appel Groq: " ++ msg,
     1)

/-! ### String utilities for the orchestrator proofs -/

theorem data_ne_nil_append (a b : String) (h : a.data ≠ []) : (a ++ b).data ≠ [] := by
  rw [String.data_append]
  simp [h]

theorem head?_data_append (a b : String) (h : a.data ≠ []) :
    (a ++ b).data.head? = a.data.head? := by
  rw [String.data_append]
  exact List.head?_append_of_ne_nil _ h

theorem append_ne_empty_left (a b : String) (h : a.data ≠ []) : a ++ b ≠ "" := by
  intro hc
  have h2 := congrArg String.data hc
  rw [String.data_append] at h2
  rcases List.append_eq_nil.mp h2 with ⟨h3, _⟩
  exact h h3

/-! ### The four user prompts start with four distinct characters, which keeps
analysis requests and fusion requests apart in the call traces. -/

theorem analyzeChunkPrompt_head (c u : String) (t : ℤ) :
    (analyzeChunkPrompt c u t).data.head? = some 'A' := by
  simp only [analyzeChunkPrompt, String.data_append, List.append_assoc]
  rw [List.head?_append_of_ne_nil _ (by decide)]
  decide

theorem fusionPromptCompany_head (t : ℤ) (m : String) :
    (fusionPromptCompany t m).data.head? = some 'S' := by
  simp only [fusionPromptCompany, String.data_append, List.append_assoc]
  rw [List.head?_append_of_ne_nil _ (by decide)]
  decide

theorem summarizeChunkPrompt_head (c : String) (t : ℤ) :
    (summarizeChunkPrompt c t).data.head? = some 'R' := by
  simp only [summarizeChunkPrompt, String.data_append, List.append_assoc]
  rw [List.head?_append_of_ne_nil _ (by decide)]
  decide

theorem fusionPromptCv_head (t : ℤ) (m : String) :
    (fusionPromptCv t m).data.head? = some 'F' := by
  simp only [fusionPromptCv, String.data_append, List.append_assoc]
  rw [List.head?_append_of_ne_nil _ (by decide)]
  decide

theorem analyzeMessages_ne_fusionMessages (c u : String) (t t2 : ℤ) (m : String) :
    analyzeChunkMessages c u t ≠ fusionMessagesCompany t2 m := by
  intro h
  simp only [analyzeChunkMessages, fusionMessagesCompany, List.cons.injEq,
    ChatMessage.mk.injEq] at h
  have h2 : analyzeChunkPrompt c u t = fusionPromptCompany t2 m := h.2.1.2
  have h3 : (analyzeChunkPrompt c u t).data.head? = (fusionPromptCompany t2 m).data.head? := by
    rw [h2]
  rw [analyzeChunkPrompt_head, fusionPromptCompany_head] at h3
  simp at h3

theorem summarizeMessages_ne_fusionMessages (c : String) (t t2 : ℤ) (m : String) :
    summarizeChunkMessages c t ≠ fusionMessagesCv t2 m := by
  intro h
  simp only [summarizeChunkMessages, fusionMessagesCv, List.cons.injEq,
    ChatMessage.mk.injEq] at h
  have h2 : summarizeChunkPrompt c t = fusionPromptCv t2 m := h.2.1.2
  have h3 : (summarizeChunkPrompt c t).data.head? = (fusionPromptCv t2 m).data.head? := by
    rw [h2]
  rw [summarizeChunkPrompt_head, fusionPromptCv_head] at h3
  simp at h3

theorem data_mk (l : List Char) : (String.mk l).data = l := rfl

theorem flatten_map_singleton {α : Type} {β : Type} (l : List α) (f : α → β) :
    (l.map (fun x => [f x])).flatten = l.map f := by
  induction l with
  | nil => rfl
  | cons x l ih => simp [ih]

/-! ### Shape of the orchestrator results in the single- and multi-segment
cases (shared by several claim theorems). -/

theorem analyze_company_single (apiKey : String) (env : Env)
    (url title meta rawContent : String) (target : ℤ) (limit : ℕ)
    (hk : apiKey ≠ "") (hr : rawContent ≠ "")
    (h1 : (split_chunks rawContent limit).length = 1) :
    analyze_company_website apiKey env url title meta rawContent target limit =
      some (analyze_chunk apiKey env (split_chunks rawContent limit).headI url target,
        [analyzeChunkMessages (split_chunks rawContent limit).headI url target]) := by
  simp [analyze_company_website, hr, hk, h1, httpCalls, analyze_chunk]

theorem analyze_company_multi (apiKey : String) (env : Env)
    (url title meta rawContent : String) (target : ℤ) (limit : ℕ)
    (hk : apiKey ≠ "") (hr : rawContent ≠ "")
    (h2 : 2 ≤ (split_chunks rawContent limit).length) :
    analyze_company_website apiKey env url title meta rawContent target limit =
      some (call_llm apiKey (env (fusionMessagesCompany target
          (companyMerged apiKey env url (split_chunks rawContent limit)
            (per_chunk_goal target (split_chunks rawContent limit).length)))),
        (split_chunks rawContent limit).map (fun c => analyzeChunkMessages c url
          (per_chunk_goal target (split_chunks rawContent limit).length)) ++
        [fusionMessagesCompany target
          (companyMerged apiKey env url (split_chunks rawContent limit)
            (per_chunk_goal target (split_chunks rawContent limit).length))]) := by
  have hne1 : (split_chunks rawContent limit).length ≠ 1 := by omega
  have hne0 : (split_chunks rawContent limit).length ≠ 0 := by omega
  simp [analyze_company_website, hr, hk, hne1, hne0, httpCalls]
  exact flatten_map_singleton _ _

theorem summarize_cv_single (apiKey : String) (env : Env) (rawText : String)
    (target : ℤ) (limit : ℕ)
    (hk : apiKey ≠ "") (hr : String.mk (cv_clean_text rawText.data) ≠ "")
    (h1 : ((cv_split_chunks (cv_clean_text rawText.data) limit).map String.mk).length = 1) :
    summarize_cv apiKey env rawText target limit =
      some (summarize_chunk apiKey env
          ((cv_split_chunks (cv_clean_text rawText.data) limit).map String.mk).headI target,
        [summarizeChunkMessages
          ((cv_split_chunks (cv_clean_text rawText.data) limit).map String.mk).headI target]) := by
  simp only [summarize_cv, data_mk]
  rw [if_neg hr, if_pos h1]
  simp [httpCalls, hk, summarize_chunk]

theorem summarize_cv_multi (apiKey : String) (env : Env) (rawText : String)
    (target : ℤ) (limit : ℕ)
    (hk : apiKey ≠ "") (hr : String.mk (cv_clean_text rawText.data) ≠ "")
    (h2 : 2 ≤ ((cv_split_chunks (cv_clean_text rawText.data) limit).map String.mk).length) :
    summarize_cv apiKey env rawText target limit =
      some (call_llm_cv apiKey (env (fusionMessagesCv target
          (cvMerged apiKey env ((cv_split_chunks (cv_clean_text rawText.data) limit).map String.mk)
            (per_chunk_goal_cv target ((cv_split_chunks (cv_clean_text rawText.data) limit).map String.mk).length)))),
        ((cv_split_chunks (cv_clean_text rawText.data) limit).map String.mk).map
          (fun c => summarizeChunkMessages c target) ++
        [fusionMessagesCv target
          (cvMerged apiKey env ((cv_split_chunks (cv_clean_text rawText.data) limit).map String.mk)
            (per_chunk_goal_cv target ((cv_split_chunks (cv_clean_text rawText.data) limit).map String.mk).length))]) := by
  have hne1 : ((cv_split_chunks (cv_clean_text rawText.data) limit).map String.mk).length ≠ 1 := by omega
  have hne0 : ((cv_split_chunks (cv_clean_text rawText.data) limit).map String.mk).length ≠ 0 := by omega
  simp only [summarize_cv, data_mk]
  rw [if_neg hne1, if_neg hne0, if_neg hr]
  simp [hk, httpCalls]
  exact flatten_map_singleton _ _

theorem analyze_company_zero (apiKey : String) (env : Env)
    (url title meta rawContent : String) (target : ℤ) (limit : ℕ)
    (hk : apiKey ≠ "") (hr : rawContent ≠ "")
    (h0 : (split_chunks rawContent limit).length = 0) :
    analyze_company_website apiKey env url title meta rawContent target limit = none := by
  simp [analyze_company_website, hr, hk, h0]

theorem summarize_cv_zero (apiKey : String) (env : Env) (rawText : String)
    (target : ℤ) (limit : ℕ)
    (hr : String.mk (cv_clean_text rawText.data) ≠ "")
    (h0 : ((cv_split_chunks (cv_clean_text rawText.data) limit).map String.mk).length = 0) :
    summarize_cv apiKey env rawText target limit = none := by
  simp only [summarize_cv, data_mk]
  rw [if_neg hr]
  simp [h0]

/-- C3: the fusion remote call is issued if and only if the chunker produced
more than one segment; with exactly one segment both orchestrators return the
single per-segment result unmodified, requested with the full target word
budget, and post exactly that one request (no fusion call). -/
theorem claim3_fusion_iff_multi_segment (apiKey : String) (env : Env)
    (url title meta rawContent rawCv : String) (target : ℤ) (limit : ℕ)
    (hk : apiKey ≠ "") (hr : rawContent ≠ "")
    (hcv : String.mk (cv_clean_text rawCv.data) ≠ "") :
    ((split_chunks rawContent limit).length = 1 →
      analyze_company_website apiKey env url title meta rawContent target limit =
        some (analyze_chunk apiKey env (split_chunks rawContent limit).headI url target,
          [analyzeChunkMessages (split_chunks rawContent limit).headI url target])) ∧
    (∀ res trace,
      analyze_company_website apiKey env url title meta rawContent target limit =
        some (res, trace) →
      ((∃ t m, fusionMessagesCompany t m ∈ trace) ↔
        1 < (split_chunks rawContent limit).length)) ∧
    (((cv_split_chunks (cv_clean_text rawCv.data) limit).map String.mk).length = 1 →
      summarize_cv apiKey env rawCv target limit =
        some (summarize_chunk apiKey env
            ((cv_split_chunks (cv_clean_text rawCv.data) limit).map String.mk).headI target,
          [summarizeChunkMessages
            ((cv_split_chunks (cv_clean_text rawCv.data) limit).map String.mk).headI target])) ∧
    (∀ res trace,
      summarize_cv apiKey env rawCv target limit = some (res, trace) →
      ((∃ t m, fusionMessagesCv t m ∈ trace) ↔
        1 < ((cv_split_chunks (cv_clean_text rawCv.data) limit).map String.mk).length)) := by
  refine ⟨?_, ?_, ?_, ?_⟩
  · intro h1
    exact analyze_company_single apiKey env url title meta rawContent target limit hk hr h1
  · intro res trace heq
    rcases e : (split_chunks rawContent limit).length with _ | n
    · rw [analyze_company_zero apiKey env url title meta rawContent target limit hk hr e] at heq
      cases heq
    · rcases n with _ | n
      · rw [analyze_company_single apiKey env url title meta rawContent target limit hk hr e] at heq
        simp only [Option.some.injEq, Prod.mk.injEq] at heq
        obtain ⟨-, htrace⟩ := heq
        constructor
        · rintro ⟨t, m, hmem⟩
          rw [← htrace] at hmem
          simp only [List.mem_singleton] at hmem
          exact absurd hmem.symm (analyzeMessages_ne_fusionMessages _ _ _ _ _)
        · omega
      · rw [analyze_company_multi apiKey env url title meta rawContent target limit hk hr
          (by omega)] at heq
        simp only [Option.some.injEq, Prod.mk.injEq] at heq
        obtain ⟨-, htrace⟩ := heq
        constructor
        · intro _
          omega
        · intro _
          exact ⟨target, companyMerged apiKey env url (split_chunks rawContent limit)
              (per_chunk_goal target (split_chunks rawContent limit).length),
            by rw [← htrace]; simp⟩
  · intro h1
    exact summarize_cv_single apiKey env rawCv target limit hk hcv h1
  · intro res trace heq
    rcases e : ((cv_split_chunks (cv_clean_text rawCv.data) limit).map String.mk).length with _ | n
    · rw [summarize_cv_zero apiKey env rawCv target limit hcv e] at heq
      cases heq
    · rcases n with _ | n
      · rw [summarize_cv_single apiKey env rawCv target limit hk hcv e] at heq
        simp only [Option.some.injEq, Prod.mk.injEq] at heq
        obtain ⟨-, htrace⟩ := heq
        constructor
        · rintro ⟨t, m, hmem⟩
          rw [← htrace] at hmem
          simp only [List.mem_singleton] at hmem
          exact absurd hmem.symm (summarizeMessages_ne_fusionMessages _ _ _ _)
        · omega
      · rw [summarize_cv_multi apiKey env rawCv target limit hk hcv (by omega)] at heq
        simp only [Option.some.injEq, Prod.mk.injEq] at heq
        obtain ⟨-, htrace⟩ := heq
        constructor
        · intro _
          omega
        · intro _
          exact ⟨target, cvMerged apiKey env
              ((cv_split_chunks (cv_clean_text rawCv.data) limit).map String.mk)
              (per_chunk_goal_cv target
                ((cv_split_chunks (cv_clean_text rawCv.data) limit).map String.mk).length),
            by rw [← htrace]; simp⟩

theorem claim3_witness :
    (("k" : String) ≠ "" ∧ ("x" : String) ≠ "" ∧
      String.mk (cv_clean_text ("x" : String).data) ≠ "") ∧
    ((split_chunks "x" 10).length = 1 →
      analyze_company_website "k" (fun _ => HttpResult.failure "") "u" "t" "m" "x" 300 10 =
        some (analyze_chunk "k" (fun _ => HttpResult.failure "") (split_chunks "x" 10).headI "u" 300,
          [analyzeChunkMessages (split_chunks "x" 10).headI "u" 300])) :=
  ⟨⟨by decide, by decide, by decide⟩,
   (claim3_fusion_iff_multi_segment "k" (fun _ => HttpResult.failure "") "u" "t" "m" "x" "x" 300 10
     (by decide) (by decide) (by decide)).1⟩

/-! ## Claims about degraded mode and soft failure -/

/-- C5 (counterexample): with no credential configured and a blank prompt,
the text endpoint replies with the input-validation message, which differs
from the fixed degraded-mode message — so not every textual response in
degraded mode equals the degraded-mode message (no network call is made
either way). -/
theorem claim5_counterexample :
    (callGroqText "" (fun _ => HttpResult.failure "") "").1 = "Veuillez saisir un prompt." ∧
    (callGroqText "" (fun _ => HttpResult.failure "") "").2 = 0 ∧
    (callGroqText "" (fun _ => HttpResult.failure "") "").1 ≠
      "Mode dégradé: aucune clé Groq fournie." := by
  refine ⟨by decide, by decide, by decide⟩

/-- C5 (amended): when no credential is configured, zero requests are posted
to the model endpoint; a prompt that is nonblank after stripping receives the
fixed degraded-mode message, while a blank prompt receives the
input-validation message, and the company analyzer returns the extracted
basic-information text (with no remote calls) instead of the degraded
message. -/
theorem claim5_no_key_no_network (env : Env) (userText url title meta rawContent : String)
    (target : ℤ) (limit : ℕ) :
    (callGroqText "" env userText).2 = 0 ∧
    (pyStripStr userText ≠ "" →
      (callGroqText "" env userText).1 = "Mode dégradé: aucune clé Groq fournie.") ∧
    (pyStripStr userText = "" →
      (callGroqText "" env userText).1 = "Veuillez saisir un prompt.") ∧
    (rawContent ≠ "" →
      analyze_company_website "" env url title meta rawContent target limit =
        some (basicInfo url title meta rawContent, [])) := by
  refine ⟨?_, ?_, ?_, ?_⟩
  · by_cases h : pyStripStr userText = "" <;> simp [callGroqText, h]
  · intro h
    simp [callGroqText, h]
  · intro h
    simp [callGroqText, h]
  · intro h
    simp [analyze_company_website, h]

theorem claim5_witness :
    (pyStripStr "hi" ≠ "" ∧
      (callGroqText "" (fun _ => HttpResult.failure "") "hi").1 =
        "Mode dégradé: aucune clé Groq fournie.") ∧
    (("x" : String) ≠ "" ∧
      analyze_company_website "" (fun _ => HttpResult.failure "") "u" "t" "m" "x" 300 10 =
        some (basicInfo "u" "t" "m" "x", [])) :=
  ⟨⟨by decide,
    (claim5_no_key_no_network (fun _ => HttpResult.failure "") "hi" "u" "t" "m" "x" 300 10).2.1
      (by decide)⟩,
   ⟨by decide,
    (claim5_no_key_no_network (fun _ => HttpResult.failure "") "hi" "u" "t" "m" "x" 300 10).2.2.2
      (by decide)⟩⟩

/-! ### Infix facts: a failed segment result still reaches the fusion input -/

theorem mem_part_of_joinWith (sep : String) (parts : List String) (p : String) (hp : p ∈ parts) :
    p.data <:+: (joinWith sep parts).data := by
  induction parts with
  | nil => cases hp
  | cons x rest ih =>
    cases rest with
    | nil =>
      simp only [List.mem_singleton] at hp
      subst hp
      exact List.infix_rfl
    | cons y t =>
      rcases List.mem_cons.mp hp with h | h
      · subst h
        rw [joinWith, String.data_append, String.data_append]
        exact ((List.prefix_append _ _).trans (List.prefix_append _ _)).isInfix
      · refine (ih h).trans ?_
        rw [joinWith, String.data_append]
        exact (List.suffix_append _ _).isInfix

theorem segment_result_infix_merged (apiKey : String) (env : Env) (url : String)
    (chunks : List String) (goal : ℤ) (i : ℕ) (hi : i < chunks.length) :
    (analyze_chunk apiKey env (chunks.get ⟨i, hi⟩) url goal).data <:+:
      (companyMerged apiKey env url chunks goal).data := by
  have hlen : i < (companyPartials apiKey env url chunks goal).length := by
    simpa [companyPartials] using hi
  have hget : (companyPartials apiKey env url chunks goal).get ⟨i, hlen⟩ =
      "[Segment " ++ toString (i + 1) ++ "/" ++ toString chunks.length ++ "]\n" ++
        analyze_chunk apiKey env (chunks.get ⟨i, hi⟩) url goal :=
    List.get_mapIdx chunks _ i hi hlen
  have hmem : ("[Segment " ++ toString (i + 1) ++ "/" ++ toString chunks.length ++ "]\n" ++
      analyze_chunk apiKey env (chunks.get ⟨i, hi⟩) url goal) ∈
      companyPartials apiKey env url chunks goal := by
    rw [← hget]
    exact List.get_mem _ _ _
  have hsuf : (analyze_chunk apiKey env (chunks.get ⟨i, hi⟩) url goal).data <:+:
      ("[Segment " ++ toString (i + 1) ++ "/" ++ toString chunks.length ++ "]\n" ++
        analyze_chunk apiKey env (chunks.get ⟨i, hi⟩) url goal).data := by
    rw [String.data_append]
    exact (List.suffix_append _ _).isInfix
  exact hsuf.trans (mem_part_of_joinWith _ _ _ hmem)

/-- C6: the remote-model client is a total function that never returns the
empty string: a missing credential yields the fixed configuration message, a
non-2xx status yields a string embedding the status code and the response
body truncated to 200 characters, a transport failure yields a network-error
string, an empty completion yields the fixed placeholder; and in the
multi-segment path every per-segment result — including any such error
string — occurs verbatim inside the merged fusion input, which the fusion
request consumes. -/
theorem claim6_call_llm_never_empty (apiKey : String) (resp : HttpResult) (code : ℕ)
    (body msg content url title meta rawContent : String) (env : Env) (target : ℤ)
    (limit : ℕ) (hk : apiKey ≠ "") :
    call_llm apiKey resp ≠ "" ∧
    call_llm_cv apiKey resp ≠ "" ∧
    call_llm "" resp = "Erreur: GROQ_API_KEY non configurée" ∧
    call_llm_cv "" resp = "Erreur: variable GROQ_API_KEY absente." ∧
    call_llm apiKey (.statusError code body) =
      "HTTP " ++ toString code ++ ": " ++ body.take 200 ∧
    call_llm apiKey (.failure msg) = "Erreur réseau: " ++ msg ∧
    (pyStripStr content = "" →
      call_llm apiKey (.success content) = "(Analyse vide)" ∧
      call_llm_cv apiKey (.success content) = "(Résumé vide)") ∧
    (pyStripStr content ≠ "" → call_llm apiKey (.success content) = pyStripStr content) ∧
    (∀ i (hi : i < (split_chunks rawContent limit).length),
      (analyze_chunk apiKey env ((split_chunks rawContent limit).get ⟨i, hi⟩) url
        (per_chunk_goal target (split_chunks rawContent limit).length)).data <:+:
      (companyMerged apiKey env url (split_chunks rawContent limit)
        (per_chunk_goal target (split_chunks rawContent limit).length)).data) ∧
    (rawContent ≠ "" → 2 ≤ (split_chunks rawContent limit).length →
      analyze_company_website apiKey env url title meta rawContent target limit =
        some (call_llm apiKey (env (fusionMessagesCompany target
            (companyMerged apiKey env url (split_chunks rawContent limit)
              (per_chunk_goal target (split_chunks rawContent limit).length)))),
          (split_chunks rawContent limit).map (fun c => analyzeChunkMessages c url
            (per_chunk_goal target (split_chunks rawContent limit).length)) ++
          [fusionMessagesCompany target
            (companyMerged apiKey env url (split_chunks rawContent limit)
              (per_chunk_goal target (split_chunks rawContent limit).length))])) := by
  refine ⟨?_, ?_, by simp [call_llm], by simp [call_llm_cv], by simp [call_llm, hk],
    by simp [call_llm, hk], ?_, ?_, ?_, ?_⟩
  · cases resp with
    | success c2 =>
      by_cases h : pyStripStr c2 = "" <;> simp [call_llm, hk, h]
    | statusError c2 b2 =>
      simp only [call_llm, if_neg hk]
      exact append_ne_empty_left _ _ (by
        exact data_ne_nil_append _ _ (data_ne_nil_append _ _ (by decide)))
    | failure m2 =>
      simp only [call_llm, if_neg hk]
      exact append_ne_empty_left _ _ (by decide)
  · cases resp with
    | success c2 =>
      by_cases h : pyStripStr c2 = "" <;> simp [call_llm_cv, hk, h]
    | statusError c2 b2 =>
      simp only [call_llm_cv, if_neg hk]
      exact append_ne_empty_left _ _ (by
        exact data_ne_nil_append _ _ (data_ne_nil_append _ _ (by decide)))
    | failure m2 =>
      simp only [call_llm_cv, if_neg hk]
      exact append_ne_empty_left _ _ (by decide)
  · intro h
    exact ⟨by simp [call_llm, hk, h], by simp [call_llm_cv, hk, h]⟩
  · intro h
    simp [call_llm, hk, h]
  · intro i hi
    exact segment_result_infix_merged apiKey env url _ _ i hi
  · intro hr h2
    exact analyze_company_multi apiKey env url title meta rawContent target limit hk hr h2

theorem claim6_witness :
    ("k" : String) ≠ "" ∧ call_llm "k" (.failure "boom") ≠ "" ∧
    call_llm "k" (.statusError 500 "oops") = "HTTP " ++ toString 500 ++ ": " ++
      ("oops" : String).take 200 :=
  ⟨by decide,
   (claim6_call_llm_never_empty "k" (.failure "boom") 500 "oops" "boom" "c" "u" "t" "m" "x"
     (fun _ => HttpResult.failure "") 300 10 (by decide)).1,
   (claim6_call_llm_never_empty "k" (.failure "boom") 500 "oops" "boom" "c" "u" "t" "m" "x"
     (fun _ => HttpResult.failure "") 300 10 (by decide)).2.2.2.2.1⟩

/-! ## app._guess_suffix (Traitement/app.py lines 140-146 and app.py lines 23-33) -/

/-- Python substring containment `needle in hay`. -/
def hasSubstr (needle : List Char) : List Char → Bool
  | [] => needle.isEmpty
  | c :: rest => needle.isPrefixOf (c :: rest) || hasSubstr needle rest

/-- The audio-suffix sniffing helper; both copies in the sources are
identical. Python `str.lower()` on the ASCII content types involved is
`Char.toLower` on every character. -/
def guessSuffix (contentType : Option String) : String :=
  let ct : List Char := ((contentType.getD "").data).map Char.toLower
  if hasSubstr "wav".data ct then ".wav"
  else if hasSubstr "webm".data ct then ".webm"
  else if hasSubstr "mpeg".data ct || hasSubstr "mp3".data ct then ".mp3"
  else if hasSubstr "ogg".data ct then ".ogg"
  else ".bin"

/-- C10: `_guess_suffix` is total over all content types including `None`,
always answers one of the five fixed suffixes, answers ".bin" exactly when
none of the five substrings occurs in the lower-cased content type, and
applies the substring tests in the fixed order wav, webm, mpeg/mp3, ogg. -/
theorem claim10_guess_suffix_total (contentType : Option String) :
    (guessSuffix contentType = ".wav" ∨ guessSuffix contentType = ".webm" ∨
     guessSuffix contentType = ".mp3" ∨ guessSuffix contentType = ".ogg" ∨
     guessSuffix contentType = ".bin") ∧
    (guessSuffix contentType = ".bin" ↔
      (hasSubstr "wav".data (((contentType.getD "").data).map Char.toLower) = false ∧
       hasSubstr "webm".data (((contentType.getD "").data).map Char.toLower) = false ∧
       hasSubstr "mpeg".data (((contentType.getD "").data).map Char.toLower) = false ∧
       hasSubstr "mp3".data (((contentType.getD "").data).map Char.toLower) = false ∧
       hasSubstr "ogg".data (((contentType.getD "").data).map Char.toLower) = false)) ∧
    (hasSubstr "wav".data (((contentType.getD "").data).map Char.toLower) = true →
      guessSuffix contentType = ".wav") ∧
    (hasSubstr "wav".data (((contentType.getD "").data).map Char.toLower) = false →
     hasSubstr "webm".data (((contentType.getD "").data).map Char.toLower) = true →
      guessSuffix contentType = ".webm") ∧
    (hasSubstr "wav".data (((contentType.getD "").data).map Char.toLower) = false →
     hasSubstr "webm".data (((contentType.getD "").data).map Char.toLower) = false →
     (hasSubstr "mpeg".data (((contentType.getD "").data).map Char.toLower) = true ∨
      hasSubstr "mp3".data (((contentType.getD "").data).map Char.toLower) = true) →
      guessSuffix contentType = ".mp3") ∧
    (hasSubstr "wav".data (((contentType.getD "").data).map Char.toLower) = false →
     hasSubstr "webm".data (((contentType.getD "").data).map Char.toLower) = false →
     hasSubstr "mpeg".data (((contentType.getD "").data).map Char.toLower) = false →
     hasSubstr "mp3".data (((contentType.getD "").data).map Char.toLower) = false →
     hasSubstr "ogg".data (((contentType.getD "").data).map Char.toLower) = true →
      guessSuffix contentType = ".ogg") ∧
    guessSuffix none = ".bin" := by
  set ct := ((contentType.getD "").data).map Char.toLower with hct
  rcases h1 : hasSubstr "wav".data ct <;>
    rcases h2 : hasSubstr "webm".data ct <;>
      rcases h3 : hasSubstr "mpeg".data ct <;>
        rcases h4 : hasSubstr "mp3".data ct <;>
          rcases h5 : hasSubstr "ogg".data ct <;>
            simp [guessSuffix, ← hct, h1, h2, h3, h4, h5] <;> decide

theorem claim10_witness :
    hasSubstr "wav".data ((((some "audio/WAV").getD "").data).map Char.toLower) = true ∧
    guessSuffix (some "audio/WAV") = ".wav" :=
  ⟨by decide, (claim10_guess_suffix_total (some "audio/WAV")).2.2.1 (by decide)⟩

/-! ## test.py retry-capable client (lines 72-138)

The async loop is embedded as a pure function: `outcomes a` is the outcome of
the POST made on loop iteration `a` (`rateLimited` carries the parsed
Retry-After header when present and parseable, as `_headers_delay` computes
it), `jitter a` models the `random.uniform(0, 0.5)` draw of `_retry_delay` on
that iteration (the binary64 rounding of the sum is absorbed into it;
`1.5 ^ attempt` itself is exact in binary64 up to attempt 33 and the cap makes
larger values irrelevant). The result carries the returned text, the sleep
delays in order, and the number of POSTs made. The `fuel` argument equals
`maxRetries + 1 - attempt`, so fuel 0 is the loop falling through. -/

def RETRY_BASE : ℚ := 3 / 2

def RETRY_CAP : ℚ := 30

/-- test._retry_delay (lines 72-74). -/
def retry_delay (attempt : ℕ) (jitter : ℚ) : ℚ :=
  min RETRY_CAP (RETRY_BASE ^ attempt + jitter)

inductive GroqOutcome where
  | rateLimited (retryAfter : Option ℚ)
  | statusError (code : ℕ) (body : String)
  | netError (msg : String)
  | success (content : String)

def retryLoop (outcomes : ℕ → GroqOutcome) (jitter : ℕ → ℚ) (maxRetries : ℕ) :
    ℕ → ℕ → Option String → String × List ℚ × ℕ
  | 0, _, lastErr =>
    ("Échec après retries: " ++ (match lastErr with | none => "None" | some m => m), [], 0)
  | fuel + 1, attempt, lastErr =>
    match outcomes attempt with
    | .rateLimited ra =>
      let d := ra.getD (retry_delay attempt (jitter attempt))
      let r := retryLoop outcomes jitter maxRetries fuel (attempt + 1) lastErr
      (r.1, d :: r.2.1, r.2.2 + 1)
    | .statusError code body =>
      if 500 ≤ code ∧ code < 600 ∧ attempt < maxRetries then
        let d := retry_delay attempt (jitter attempt)
        let r := retryLoop outcomes jitter maxRetries fuel (attempt + 1)
          (some ("HTTP " ++ toString code))
        (r.1, d :: r.2.1, r.2.2 + 1)
      else ("Erreur HTTP: " ++ toString code ++ " - " ++ body.take 300, [], 1)
    | .netError msg =>
      if attempt < maxRetries then
        let d := retry_delay attempt (jitter attempt)
        let r := retryLoop outcomes jitter maxRetries fuel (attempt + 1) (some msg)
        (r.1, d :: r.2.1, r.2.2 + 1)
      else ("Erreur réseau: " ++ msg, [], 1)
    | .success content =>
      ((if pyStripStr content = "" then "(réponse vide)" else pyStripStr content), [], 1)

/-- test.call_groq_with_retries (lines 87-138). -/
def call_groq_with_retries (apiKey : String) (maxRetries : ℕ) (outcomes : ℕ → GroqOutcome)
    (jitter : ℕ → ℚ) : String × List ℚ × ℕ :=
  if apiKey = "" then ("Mode dégradé: GROQ_API_KEY manquante.", [], 0)
  else retryLoop outcomes jitter maxRetries (maxRetries + 1) 0 none

theorem retryLoop_count_le (outcomes : ℕ → GroqOutcome) (jitter : ℕ → ℚ) (maxRetries : ℕ) :
    ∀ (fuel attempt : ℕ) (lastErr : Option String),
      (retryLoop outcomes jitter maxRetries fuel attempt lastErr).2.2 ≤ fuel := by
  intro fuel
  induction fuel with
  | zero =>
    intro attempt lastErr
    simp [retryLoop]
  | succ n ih =>
    intro attempt lastErr
    rcases houtcome : outcomes attempt with ra | ⟨c, b⟩ | m | c <;>
      simp only [retryLoop, houtcome]
    · exact Nat.succ_le_succ (ih _ _)
    · by_cases hc : 500 ≤ c ∧ c < 600 ∧ attempt < maxRetries
      · simp only [if_pos hc]
        exact Nat.succ_le_succ (ih _ _)
      · simp only [if_neg hc]
        omega
    · by_cases hc : attempt < maxRetries
      · simp only [if_pos hc]
        exact Nat.succ_le_succ (ih _ _)
      · simp only [if_neg hc]
        omega
    · by_cases hc : pyStripStr c = "" <;> simp [hc]

theorem retryLoop_count_pos (outcomes : ℕ → GroqOutcome) (jitter : ℕ → ℚ) (maxRetries : ℕ) :
    ∀ (fuel attempt : ℕ) (lastErr : Option String), 0 < fuel →
      1 ≤ (retryLoop outcomes jitter maxRetries fuel attempt lastErr).2.2 := by
  intro fuel
  induction fuel with
  | zero =>
    intro _ _ h
    omega
  | succ n ih =>
    intro attempt lastErr _
    rcases houtcome : outcomes attempt with ra | ⟨c, b⟩ | m | c <;>
      simp only [retryLoop, houtcome]
    · omega
    · by_cases hc : 500 ≤ c ∧ c < 600 ∧ attempt < maxRetries
      · simp only [if_pos hc]
        omega
      · simp only [if_neg hc]
        omega
    · by_cases hc : attempt < maxRetries
      · simp only [if_pos hc]
        omega
      · simp only [if_neg hc]
        omega
    · by_cases hc : pyStripStr c = "" <;> simp [hc]

/-- C7: the retry policy of `call_groq_with_retries`: the computed backoff
delay never exceeds the 30-second cap; a 429 waits the server Retry-After
delay when present and the jittered exponential backoff otherwise, and then
retries; a 5xx retries with the same backoff; any other 4xx returns its
failure string immediately after a single request with no waiting; and the
total number of requests never exceeds the fixed maximum attempt count
`maxRetries + 1`. -/
theorem claim7_retry_policy (apiKey : String) (maxRetries : ℕ)
    (outcomes : ℕ → GroqOutcome) (jitter : ℕ → ℚ) (r : ℚ) (code : ℕ) (body : String)
    (hk : apiKey ≠ "") :
    (∀ (attempt : ℕ) (j : ℚ), retry_delay attempt j ≤ RETRY_CAP) ∧
    RETRY_CAP = 30 ∧
    (outcomes 0 = .rateLimited (some r) →
      (call_groq_with_retries apiKey maxRetries outcomes jitter).2.1.head? = some r ∧
      (0 < maxRetries →
        2 ≤ (call_groq_with_retries apiKey maxRetries outcomes jitter).2.2)) ∧
    (outcomes 0 = .rateLimited none →
      (call_groq_with_retries apiKey maxRetries outcomes jitter).2.1.head? =
        some (retry_delay 0 (jitter 0))) ∧
    (outcomes 0 = .statusError code body → 500 ≤ code → code < 600 → 0 < maxRetries →
      (call_groq_with_retries apiKey maxRetries outcomes jitter).2.1.head? =
        some (retry_delay 0 (jitter 0))) ∧
    (outcomes 0 = .statusError code body → code < 500 →
      call_groq_with_retries apiKey maxRetries outcomes jitter =
        ("Erreur HTTP: " ++ toString code ++ " - " ++ body.take 300, [], 1)) ∧
    (call_groq_with_retries apiKey maxRetries outcomes jitter).2.2 ≤ maxRetries + 1 := by
  refine ⟨fun attempt j => min_le_left _ _, rfl, ?_, ?_, ?_, ?_, ?_⟩
  · intro h
    simp only [call_groq_with_retries, if_neg hk, retryLoop, h]
    exact ⟨rfl, fun hm =>
      Nat.succ_le_succ (retryLoop_count_pos outcomes jitter maxRetries _ _ _ hm)⟩
  · intro h
    simp only [call_groq_with_retries, if_neg hk, retryLoop, h]
    rfl
  · intro h h5 h6 hm
    have hc : 500 ≤ code ∧ code < 600 ∧ 0 < maxRetries := ⟨h5, h6, hm⟩
    simp only [call_groq_with_retries, if_neg hk, retryLoop, h, if_pos hc]
    rfl
  · intro h hlt
    have hc : ¬(500 ≤ code ∧ code < 600 ∧ 0 < maxRetries) := by omega
    simp only [call_groq_with_retries, if_neg hk, retryLoop, h, if_neg hc]
  · simp only [call_groq_with_retries, if_neg hk]
    exact retryLoop_count_le outcomes jitter maxRetries _ _ _

theorem claim7_witness :
    ("k" : String) ≠ "" ∧
    (call_groq_with_retries "k" 5
      (fun n => if n = 0 then GroqOutcome.rateLimited (some 3) else GroqOutcome.success "ok")
      (fun _ => 0)).2.1.head? = some 3 :=
  ⟨by decide,
   ((claim7_retry_policy "k" 5
      (fun n => if n = 0 then GroqOutcome.rateLimited (some 3) else GroqOutcome.success "ok")
      (fun _ => 0) 3 400 "b" (by decide)).2.2.1 rfl).1⟩

/-! ## The end-to-end sizing scenario -/

theorem splitChunksChars_no_whitespace (text : List Char) (limit : ℕ)
    (h : ∀ c ∈ text, ¬c.isWhitespace) (hne : text ≠ []) (hlim : limit < text.length) :
    splitChunksChars text limit = [text] := by
  rw [splitChunksChars, if_neg (not_le.mpr hlim), pySplit_no_whitespace text h hne]
  simp [splitChunksLoop, joinSpace_singleton]

/-- C8 (counterexample): not every 12,000-character input yields three
segments under limit 5,000 — a single 12,000-character token is returned as
one oversized segment. -/
theorem claim8_counterexample :
    (List.replicate 12000 'a').length = 12000 ∧
    splitChunksChars (List.replicate 12000 'a') 5000 = [List.replicate 12000 'a'] ∧
    (splitChunksChars (List.replicate 12000 'a') 5000).length ≠ 3 := by
  have h := splitChunksChars_no_whitespace (List.replicate 12000 'a') 5000
    (fun c hc => by rw [List.eq_of_mem_replicate hc]; decide)
    (by
      intro hc
      have h2 := congrArg List.length hc
      rw [List.length_replicate, List.length_nil] at h2
      omega)
    (by rw [List.length_replicate]; omega)
  exact ⟨by rw [List.length_replicate], h, by rw [h]; decide⟩

/-- A 12,000-character text made of 1,091 ten-character words separated by
single spaces. -/
def scenarioWords : List (List Char) := List.replicate 1091 (List.replicate 10 'a')

def scenarioText : List Char := List.intercalate [' '] scenarioWords

theorem length_joinSpace_replicate (w : List Char) :
    ∀ n : ℕ, 0 < n → (joinSpace (List.replicate n w)).length = n * w.length + (n - 1) := by
  intro n
  induction n with
  | zero => omega
  | succ n ih =>
    intro _
    cases n with
    | zero => simp [joinSpace_singleton]
    | succ m =>
      have hcc : joinSpace (List.replicate (m + 1 + 1) w) =
          w ++ ' ' :: joinSpace (List.replicate (m + 1) w) := by
        rw [List.replicate_succ, List.replicate_succ]
        exact joinSpace_cons_cons w w (List.replicate m w)
      rw [hcc, List.length_append, List.length_cons, ih (by omega)]
      have hmul : (m + 1 + 1) * w.length = (m + 1) * w.length + w.length := by ring
      omega

theorem scenarioText_length : scenarioText.length = 12000 := by
  have h := length_joinSpace_replicate (List.replicate 10 'a') 1091 (by omega)
  simp only [List.length_replicate] at h
  exact h

theorem scenarioText_tokens : pySplit scenarioText = scenarioWords := by
  refine pySplit_joinSpace scenarioWords ?_ ?_ ?_
  · intro hc
    have h2 := congrArg List.length hc
    rw [scenarioWords, List.length_replicate, List.length_nil] at h2
    omega
  · intro w hw
    rw [List.eq_of_mem_replicate hw]
    decide
  · intro w hw c hc
    rw [List.eq_of_mem_replicate hw] at hc
    rw [List.eq_of_mem_replicate hc]
    decide

/-- C8 (amended): there are 12,000-character inputs — for example
`scenarioText` — on which `split_chunks` with limit 5,000 yields exactly 3
segments (other 12,000-character inputs can yield other counts, see the
counterexample); the per-chunk budget for a 300-word target over 3 segments
is `max(50, int(300*0.7/3)) = 70` words and the fusion request carries the
full 300-word target. -/
theorem claim8_scenario (apiKey : String) (env : Env) (url title meta : String)
    (hk : apiKey ≠ "") :
    scenarioText.length = 12000 ∧
    (splitChunksChars scenarioText 5000).length = 3 ∧
    per_chunk_goal 300 3 = 70 ∧
    analyze_company_website apiKey env url title meta (String.mk scenarioText) 300 5000 =
      some (call_llm apiKey (env (fusionMessagesCompany 300
          (companyMerged apiKey env url (split_chunks (String.mk scenarioText) 5000)
            (per_chunk_goal 300 (split_chunks (String.mk scenarioText) 5000).length)))),
        (split_chunks (String.mk scenarioText) 5000).map (fun c => analyzeChunkMessages c url
          (per_chunk_goal 300 (split_chunks (String.mk scenarioText) 5000).length)) ++
        [fusionMessagesCompany 300
          (companyMerged apiKey env url (split_chunks (String.mk scenarioText) 5000)
            (per_chunk_goal 300 (split_chunks (String.mk scenarioText) 5000).length))]) := by
  have hlen : scenarioText.length = 12000 := scenarioText_length
  have hchunks : (splitChunksChars scenarioText 5000).length = 3 := by
    rw [splitChunksChars, if_neg (by rw [hlen]; omega), scenarioText_tokens,
      splitChunksLoop_eq_map, List.length_map]
    decide
  refine ⟨hlen, hchunks, by decide, ?_⟩
  have hr : String.mk scenarioText ≠ "" := by
    intro hc
    have h2 := congrArg String.data hc
    simp only [data_mk] at h2
    rw [h2] at hlen
    simp at hlen
  have hsplit : (split_chunks (String.mk scenarioText) 5000).length = 3 := by
    rw [split_chunks, List.length_map, data_mk]
    exact hchunks
  exact analyze_company_multi apiKey env url title meta (String.mk scenarioText) 300 5000
    hk hr (by omega)

theorem claim8_witness :
    ("k" : String) ≠ "" ∧ per_chunk_goal 300 3 = 70 :=
  ⟨by decide,
   (claim8_scenario "k" (fun _ => HttpResult.failure "") "u" "t" "m" (by decide)).2.2.1⟩

end VoiceAssistant
